import Mathlib

set_option maxRecDepth 8000

/-!
Verification development for the incremental SQL decoding engine of
`src/rust/src/sql_code_generator.rs` and the FFI constructor of
`src/rust/src/lib.rs`.

Shallow embedding conventions:
* token ids (`u32`) are `Nat`;
* `f32` logits are `Rat` (exact arithmetic; the claims checked here are about
  sign and ordering behaviour, not rounding);
* the external collaborators (model registry, tensor runtime, tokenizer
  vocabulary, chat-template engine) are a record of functions `Env`;
  their fallibility (`anyhow::Error`) is `Except String`;
* the model object's KV cache is opaque to the core: it is a value of type
  `KV` threaded through `Env.forward`, with `[]` standing for the freshly
  reset empty cache produced by `clear_kv_cache`;
* text produced by the tokenizer is modelled as `List Char` (the source works
  with UTF-8 `String`; byte positions become character positions);
* Rust mutation of `&mut self` becomes explicit state passing: `generate`
  returns its result together with the final session state, plus ghost
  observation fields (the trace of forward calls, the encoded prompt, the
  final token sequence, and the number of KV-cache resets performed).
-/

deriving instance DecidableEq for Except

attribute [local semireducible] Rat.mul Rat.inv Rat.add Rat.sub

/-- Token ids are `u32` in the source; modelled as `Nat`. -/
abbrev Token := Nat

/-- Opaque content of the tensor runtime's KV cache. The core never inspects
it; it only threads it through `Env.forward` and resets it to the empty value
`[]` (the state `clear_kv_cache` produces). -/
abbrev KV := List Nat

/-- Error taxonomy of a `generate`/`new` call. The Rust code uses `anyhow`
errors; each constructor tags the call site that produced the error, with the
underlying message. An error value carries no partial output. -/
inductive GenErr where
  | templateErr (msg : String)
  | encodeFail (msg : String)
  | missingStopToken (name : String)
  | forwardErr (msg : String)
  | decodeErr (msg : String)
  | constructionErr (msg : String)
deriving DecidableEq

/-- A role-tagged chat message (`chat_templates::Message`). -/
structure Message where
  role : String
  content : String
deriving DecidableEq

/-- The external collaborators of the decoding core, as pure fallible
functions: the chat-template engine, the tokenizer encode/decode and
special-token lookup, the tensor runtime forward pass (which consumes and
returns the KV cache and yields a flat logits vector, folding in the tensor
construction, `squeeze` and dtype conversion of lines 127-129), and the
fallible construction-time artifact loading (registry fetch, config parse,
weight load, device selection) of `SqlCodeGenerator::new`. -/
structure Env where
  apply_template : List Message → Bool → Except String String
  encode : String → Bool → Except String (List Token)
  get_token : String → Option Token
  decode : List Token → Except String (List Char)
  forward : KV → List Token → Nat → Except String (List Rat × KV)
  construct : Except String Unit

/-- Tag a raw tokenizer decode failure (`map_err(Error::msg)`). -/
def decodeE (env : Env) (l : List Token) : Except GenErr (List Char) :=
  match env.decode l with
  | .ok cs => .ok cs
  | .error m => .error (.decodeErr m)

/-- State of `candle_examples::token_output_stream::TokenOutputStream`, the
incremental decoder the session owns: the ids fed so far and the decode
cursor (`prev_index`, `current_index`). -/
structure TokenOutputStream where
  tokens : List Token
  prev_index : Nat
  current_index : Nat
deriving DecidableEq

/-- Model of `TokenOutputStream::clear`: drops the fed tokens and zeroes the cursor. -/
def TokenOutputStream.clear (_s : TokenOutputStream) : TokenOutputStream :=
  ⟨[], 0, 0⟩

/-- Model of `TokenOutputStream::next_token`: feed one id, emit a text fragment once
the decoded text has grown and ends in an alphanumeric character. -/
def TokenOutputStream.next_token (env : Env) (s : TokenOutputStream)
    (token : Token) : Except GenErr (Option (List Char) × TokenOutputStream) :=
  match (if s.tokens.isEmpty then .ok [] else
      decodeE env ((s.tokens.take s.current_index).drop s.prev_index)) with
  | .error e => .error e
  | .ok prev_text =>
    match decodeE env ((s.tokens ++ [token]).drop s.prev_index) with
    | .error e => .error e
    | .ok text =>
      if prev_text.length < text.length ∧
          (text.getLast?.map Char.isAlphanum).getD false then
        .ok (some (text.drop prev_text.length),
             ⟨s.tokens ++ [token], s.current_index, (s.tokens ++ [token]).length⟩)
      else
        .ok (none, ⟨s.tokens ++ [token], s.prev_index, s.current_index⟩)

/-- Model of `TokenOutputStream::decode_rest`: flush any buffered-but-unemitted text. -/
def TokenOutputStream.decode_rest (env : Env) (s : TokenOutputStream) :
    Except GenErr (Option (List Char)) :=
  match (if s.tokens.isEmpty then .ok [] else
      decodeE env ((s.tokens.take s.current_index).drop s.prev_index)) with
  | .error e => .error e
  | .ok prev_text =>
    match decodeE env (s.tokens.drop s.prev_index) with
    | .error e => .error e
    | .ok text =>
      if prev_text.length < text.length then
        .ok (some (text.drop prev_text.length))
      else
        .ok none

/-- Model of `LogitsProcessor::sample` as configured at line 79:
`LogitsProcessor::new(299792458, Some(0.0), None)` resolves to `ArgMax`
sampling (candle treats a temperature below `1e-7` as none), so the seed is
never consulted: the sampled id is the index of the last maximum logit
(Rust `max_by` keeps the last of equal maxima). Empty logits would make the
dependency panic; the model contract (spec section 4.3) excludes them, and the
total model returns 0 there. -/
def sample_argmax (logits : List Rat) : Token :=
  match logits with
  | [] => 0
  | x :: xs =>
    (xs.foldl
      (fun acc y =>
        if acc.2.2 ≤ y then (acc.1 + 1, acc.1 + 1, y) else (acc.1 + 1, acc.2.1, acc.2.2))
      ((0 : Nat), (0 : Nat), x)).2.1

/-- One penalty application of `candle_transformers::utils::apply_repeat_penalty`:
at index `id` (when in range) a non-negative logit is divided by the penalty
and a negative one is multiplied by it. -/
def applyPenaltyAt (logits : List Rat) (penalty : Rat) (id : Nat) : List Rat :=
  match logits.get? id with
  | none => logits
  | some x => logits.set id (if 0 ≤ x then x / penalty else x * penalty)

/-- The iteration of `apply_repeat_penalty` over the context window, with the
`HashSet` of already-seen ids as a list: each distinct id is penalized once. -/
def penaltyGo (penalty : Rat) : List Token → List Token → List Rat → List Rat
  | [], _, acc => acc
  | id :: rest, seen, acc =>
    if id ∈ seen then penaltyGo penalty rest seen acc
    else penaltyGo penalty rest (id :: seen) (applyPenaltyAt acc penalty id)

/-- Model of `candle_transformers::utils::apply_repeat_penalty`. -/
def apply_repeat_penalty (logits : List Rat) (penalty : Rat)
    (context : List Token) : List Rat :=
  penaltyGo penalty context [] logits

/-- Lines 130-139 of `generate`: the logits actually sampled from — unmodified
when the penalty is exactly 1, otherwise penalized over the trailing window of
the last `repeat_last_n` tokens (`saturating_sub` start). -/
def penalizedLogits (repeat_penalty : Rat) (repeat_last_n : Nat)
    (tokens : List Token) (logits : List Rat) : List Rat :=
  if repeat_penalty = 1 then logits
  else apply_repeat_penalty logits repeat_penalty
    (tokens.drop (tokens.length - repeat_last_n))

/-- The generator session (`struct SqlCodeGenerator`): the model's KV cache,
the incremental tokenizer stream, and the sampling configuration. The device
is fixed at construction and does not enter the control flow; the logits
processor is the stateless argmax above. -/
structure SqlCodeGenerator where
  kv : KV
  tokenizer : TokenOutputStream
  repeat_penalty : Rat
  repeat_last_n : Nat
deriving DecidableEq

/-- Model of `SqlCodeGenerator::new`: performs the fallible artifact loading (registry
fetch, tokenizer load, config parse, weight load, device selection, modelled
by `Env.construct`) and on success returns the initial session: empty KV
cache, fresh token stream, `repeat_penalty = 1.10`, `repeat_last_n = 64`.
Note that `new` performs no stop-token validation. -/
def SqlCodeGenerator.new (env : Env) : Except GenErr SqlCodeGenerator :=
  match env.construct with
  | .error m => .error (.constructionErr m)
  | .ok _ => .ok ⟨[], ⟨[], 0, 0⟩, (11 : Rat) / 10, 64⟩

/-- The fixed system message (`SYSTEM_PROMPT` of `sql_code_generator.rs`).
The source constant is a long DuckDB SQL guidance text; only its identity as
a fixed string matters to the control flow, so the literal is abbreviated to
its opening lines here. -/
def SYSTEM_PROMPT : String :=
  "System:\nYour task is to generate valid DuckDB SQL to answer the question that the user asks. You should only respond with a valid DuckDB SQL query.\n"

/-- Mutable state of the decoding loop: the growing token sequence, the
accumulated output text, the KV cache, the tokenizer stream, and (ghost) the
trace of forward invocations as (context, start position) pairs. -/
structure GenSt where
  tokens : List Token
  output : List Char
  kv : KV
  stream : TokenOutputStream
  calls : List (List Token × Nat)
deriving DecidableEq

/-- The `for index in 0..256` loop of `generate` (lines 123-149), as fuel
recursion: iteration `index` feeds the whole token sequence at position 0 when
`index = 0` and the single last token at position `len - 1` otherwise, samples
from the (possibly penalized) logits, appends the sampled id, breaks on either
stop id without feeding it to the decoder, and otherwise feeds it to the
stream and appends any returned fragment. The second component is `some e`
when the iteration aborted with error `e`. -/
def decodeLoop (env : Env) (repeat_penalty : Rat) (repeat_last_n : Nat)
    (eos_token eos_token2 : Token) :
    Nat → Nat → GenSt → GenSt × Option GenErr
  | _index, 0, st => (st, none)
  | index, fuel + 1, st =>
    let context_size := if 0 < index then 1 else st.tokens.length
    let start_pos := st.tokens.length - context_size
    let ctxt := st.tokens.drop start_pos
    let st1 : GenSt := { st with calls := st.calls ++ [(ctxt, start_pos)] }
    match env.forward st1.kv ctxt start_pos with
    | .error m => (st1, some (.forwardErr m))
    | .ok (logits, kv2) =>
      let next_token :=
        sample_argmax (penalizedLogits repeat_penalty repeat_last_n st1.tokens logits)
      let st2 : GenSt :=
        { st1 with kv := kv2, tokens := st1.tokens ++ [next_token] }
      if next_token = eos_token ∨ next_token = eos_token2 then (st2, none)
      else
        match TokenOutputStream.next_token env st2.stream next_token with
        | .error e => (st2, some e)
        | .ok (frag, stream2) =>
          decodeLoop env repeat_penalty repeat_last_n eos_token eos_token2
            (index + 1) fuel
            { st2 with stream := stream2, output := st2.output ++ frag.getD [] }

/-- Observable outcome of one `generate` call: the returned value, the final
session state, and ghost observations — the trace of forward invocations, the
encoded prompt, the final token sequence, and how many times `clear_kv_cache`
ran during the call. -/
structure GenOut where
  result : Except GenErr String
  session : SqlCodeGenerator
  calls : List (List Token × Nat)
  prompt_tokens : List Token
  all_tokens : List Token
  cache_resets : Nat
deriving DecidableEq

/-- Model of `SqlCodeGenerator::generate` (lines 90-155): clear the token stream,
compose and template the two-message transcript, encode it, resolve both stop
ids (failing the call if either is absent), run the decoding loop, flush the
stream remainder, reset the KV cache, and return the accumulated text. Every
error path returns before `clear_kv_cache`. -/
def SqlCodeGenerator.generate (env : Env) (g : SqlCodeGenerator)
    (prompt table_schema : String) : GenOut :=
  let tokenizer := g.tokenizer.clear
  let combined_prompt := prompt ++ "\nSCHEMA: " ++ table_schema
  let system_message : Message := ⟨"system", SYSTEM_PROMPT⟩
  let user_message : Message := ⟨"user", combined_prompt⟩
  match env.apply_template [system_message, user_message] true with
  | .error m =>
    ⟨.error (.templateErr m), ⟨g.kv, tokenizer, g.repeat_penalty, g.repeat_last_n⟩,
      [], [], [], 0⟩
  | .ok chat_template =>
    match env.encode chat_template true with
    | .error m =>
      ⟨.error (.encodeFail m), ⟨g.kv, tokenizer, g.repeat_penalty, g.repeat_last_n⟩,
        [], [], [], 0⟩
    | .ok tokens =>
      match env.get_token "<|endoftext|>" with
      | none =>
        ⟨.error (.missingStopToken "<|endoftext|>"),
          ⟨g.kv, tokenizer, g.repeat_penalty, g.repeat_last_n⟩, [], tokens, tokens, 0⟩
      | some eos_token =>
        match env.get_token "<|im_end|>" with
        | none =>
          ⟨.error (.missingStopToken "<|im_end|>"),
            ⟨g.kv, tokenizer, g.repeat_penalty, g.repeat_last_n⟩, [], tokens, tokens, 0⟩
        | some eos_token2 =>
          match decodeLoop env g.repeat_penalty g.repeat_last_n eos_token eos_token2
              0 256 ⟨tokens, [], g.kv, tokenizer, []⟩ with
          | (st, some e) =>
            ⟨.error e, ⟨st.kv, st.stream, g.repeat_penalty, g.repeat_last_n⟩,
              st.calls, tokens, st.tokens, 0⟩
          | (st, none) =>
            match TokenOutputStream.decode_rest env st.stream with
            | .error e =>
              ⟨.error e, ⟨st.kv, st.stream, g.repeat_penalty, g.repeat_last_n⟩,
                st.calls, tokens, st.tokens, 0⟩
            | .ok rest =>
              ⟨.ok (String.mk (st.output ++ rest.getD [])),
                ⟨[], st.stream, g.repeat_penalty, g.repeat_last_n⟩,
                st.calls, tokens, st.tokens, 1⟩

/-- Outcome of the FFI constructor: either a constructed session or a process
abort (Rust `expect` panic). There is no error-value constructor, matching the
`Box<SqlCodeGenerator>` return type of `lib.rs`. -/
inductive FfiOutcome where
  | ok (g : SqlCodeGenerator)
  | abort (msg : String)
deriving DecidableEq

/-- Model of `create_sql_code_generator` of `lib.rs`:
`Box::new(SqlCodeGenerator::new().expect("Failed to construct"))`. -/
def create_sql_code_generator (env : Env) : FfiOutcome :=
  match SqlCodeGenerator.new env with
  | .ok g => .ok g
  | .error _ => .abort "Failed to construct"

/-! ### Concrete environments used to exercise the model

These instantiate the external collaborators with small deterministic
functions: the vocabulary resolves `<|endoftext|>` to id 1 and `<|im_end|>`
to id 2 (except where noted), id 0 is an ordinary text token, and the decoder
renders every id as the letter a (or as nothing, where noted). -/

/-- The freshly constructed session (`SqlCodeGenerator::new` on success). -/
def freshSession : SqlCodeGenerator := ⟨[], ⟨[], 0, 0⟩, (11 : Rat) / 10, 64⟩

/-- Model scenario: the prefill samples the text token 0, the next iteration
samples the stop token 1; every forward pass appends to the KV cache. -/
def baseEnv : Env :=
  { apply_template := fun _ _ => .ok "tpl"
    encode := fun _ _ => .ok [0]
    get_token := fun n =>
      if n = "<|endoftext|>" then some 1 else
      if n = "<|im_end|>" then some 2 else none
    decode := fun l => .ok (List.replicate l.length 'a')
    forward := fun kv _ sp =>
      .ok (if sp = 0 then [1, 0, 0] else [0, 1, 0], kv ++ [7])
    construct := .ok () }

/-- Model scenario: the model always prefers token 0 and never emits a stop
token, so only the 256-iteration budget can end the loop. -/
def envBudget : Env :=
  { baseEnv with
    decode := fun _ => .ok []
    forward := fun kv _ _ => .ok ([0, -1, -1], kv) }

/-- Model scenario: the very first sampled token is already the stop token. -/
def envEosFirst : Env :=
  { envBudget with forward := fun kv _ _ => .ok ([0, 1, 0], kv) }

/-- Model scenario: the prefill succeeds (and dirties the KV cache), the
first single-token decode step fails in the tensor runtime. -/
def envFwdFail : Env :=
  { envBudget with
    forward := fun _ _ sp =>
      if sp = 0 then .ok ([0, -1, -1], [99]) else .error "boom" }

/-- A tokenizer with no special markers at all. -/
def envNoStop : Env := { envBudget with get_token := fun _ => none }

/-- Construction-time artifact loading fails. -/
def envCtorFail : Env := { envBudget with construct := .error "io error" }

/-- Tokenizer scenario in which an ORDINARY token (id 0, not a stop token)
decodes to the very text of the stop marker: nothing in the decoding loop
prevents the marker's rendering from being spelled by non-stop tokens (with
the real byte-level tokenizer the same text is reachable from ordinary
character tokens). The model behaves as in `baseEnv`: the prefill samples
token 0, the next iteration samples the stop token 1. -/
def envMarkerText : Env :=
  { baseEnv with
    decode := fun l =>
      .ok (if l.isEmpty then [] else "<|endoftext|>".toList) }

/-! ### Properties of the repetition penalty -/

lemma applyPenaltyAt_length (logits : List Rat) (p : Rat) (id : Nat) :
    (applyPenaltyAt logits p id).length = logits.length := by
  unfold applyPenaltyAt
  split <;> simp

lemma applyPenaltyAt_get?_same (logits : List Rat) (p : Rat) (id : Nat) :
    (applyPenaltyAt logits p id).get? id =
      (logits.get? id).map (fun x => if 0 ≤ x then x / p else x * p) := by
  unfold applyPenaltyAt
  cases h : logits.get? id with
  | none => simp only [h, Option.map_none']
  | some x =>
    simp only [h, Option.map_some']
    rw [List.get?_set_eq, h]
    rfl

lemma applyPenaltyAt_get?_other (logits : List Rat) (p : Rat) (id j : Nat)
    (h : j ≠ id) : (applyPenaltyAt logits p id).get? j = logits.get? j := by
  unfold applyPenaltyAt
  split
  · rfl
  · exact List.get?_set_ne _ _ (Ne.symm h)

lemma penaltyGo_get?_seen (p : Rat) :
    ∀ (ctx seen : List Token) (acc : List Rat) (id : Nat), id ∈ seen →
      (penaltyGo p ctx seen acc).get? id = acc.get? id
  | [], _, _, _, _ => rfl
  | id' :: rest, seen, acc, id, h => by
    unfold penaltyGo
    split
    · exact penaltyGo_get?_seen p rest seen acc id h
    · rename_i hnot
      have hne : id ≠ id' := fun he => hnot (he ▸ h)
      rw [penaltyGo_get?_seen p rest (id' :: seen) _ id (List.mem_cons_of_mem _ h)]
      exact applyPenaltyAt_get?_other acc p id' id hne

lemma penaltyGo_get?_mem (p : Rat) :
    ∀ (ctx seen : List Token) (acc : List Rat) (id : Nat), id ∈ ctx → id ∉ seen →
      (penaltyGo p ctx seen acc).get? id =
        (acc.get? id).map (fun x => if 0 ≤ x then x / p else x * p)
  | [], _, _, _, hmem, _ => absurd hmem (List.not_mem_nil _)
  | id' :: rest, seen, acc, id, hmem, hseen => by
    unfold penaltyGo
    by_cases he : id = id'
    · subst he
      rw [if_neg hseen]
      rw [penaltyGo_get?_seen p rest (id :: seen) _ id (List.mem_cons_self _ _)]
      exact applyPenaltyAt_get?_same acc p id
    · have hrest : id ∈ rest := by
        cases List.mem_cons.mp hmem with
        | inl h => exact absurd h he
        | inr h => exact h
      split
      · exact penaltyGo_get?_mem p rest seen acc id hrest hseen
      · rw [penaltyGo_get?_mem p rest (id' :: seen) _ id hrest
          (by simp [List.mem_cons, he, hseen])]
        rw [applyPenaltyAt_get?_other acc p id' id he]

lemma apply_repeat_penalty_get?_mem (logits : List Rat) (p : Rat)
    (ctx : List Token) (id : Nat) (h : id ∈ ctx) :
    (apply_repeat_penalty logits p ctx).get? id =
      (logits.get? id).map (fun x => if 0 ≤ x then x / p else x * p) :=
  penaltyGo_get?_mem p ctx [] logits id h (List.not_mem_nil _)

/-- C7: in the sampling step the logits are used unmodified when the
repetition-penalty multiplier is exactly 1; otherwise every token id in the
trailing window of the last `repeat_last_n` history tokens has its logit
divided by the penalty when non-negative and multiplied by it when negative,
and for a penalty above 1 the penalized value strictly decreases while
keeping its sign (a positive logit stays positive, a negative one stays
negative), so the adjustment always moves toward less likely and never flips
the sign direction. -/
theorem c7_repetition_penalty_sign (repeat_penalty : Rat) (repeat_last_n : Nat)
    (history : List Token) (logits : List Rat) :
    (repeat_penalty = 1 →
      penalizedLogits repeat_penalty repeat_last_n history logits = logits) ∧
    (repeat_penalty ≠ 1 →
      ∀ id, id ∈ history.drop (history.length - repeat_last_n) →
      ∀ x, logits.get? id = some x →
        (penalizedLogits repeat_penalty repeat_last_n history logits).get? id =
          some (if 0 ≤ x then x / repeat_penalty else x * repeat_penalty) ∧
        (1 < repeat_penalty → 0 < x →
          x / repeat_penalty < x ∧ 0 < x / repeat_penalty) ∧
        (1 < repeat_penalty → x < 0 →
          x * repeat_penalty < x ∧ x * repeat_penalty < 0)) := by
  constructor
  · intro h
    simp [penalizedLogits, h]
  · intro hne id hid x hx
    refine ⟨?_, ?_, ?_⟩
    · rw [penalizedLogits, if_neg hne,
        apply_repeat_penalty_get?_mem _ _ _ _ hid, hx, Option.map_some']
    · intro hp hpos
      exact ⟨div_lt_self hpos hp, div_pos hpos (lt_trans one_pos hp)⟩
    · intro hp hneg
      constructor
      · calc x * repeat_penalty < x * 1 := mul_lt_mul_of_neg_left hp hneg
          _ = x := mul_one x
      · exact mul_neg_of_neg_of_pos hneg (lt_trans one_pos hp)

/-- Witness for C7 at the session configuration `repeat_penalty = 1.10`,
`repeat_last_n = 64`, with a positive logit 2 and a negative logit -3 both in
the penalty window. -/
theorem c7_witness :
    (penalizedLogits ((11 : Rat) / 10) 64 [0, 1] [2, -3]).get? 0 =
      some (if (0 : Rat) ≤ 2 then 2 / ((11 : Rat) / 10) else 2 * ((11 : Rat) / 10)) ∧
    ((2 : Rat) / ((11 : Rat) / 10) < 2 ∧ 0 < (2 : Rat) / ((11 : Rat) / 10)) ∧
    (penalizedLogits ((11 : Rat) / 10) 64 [0, 1] [2, -3]).get? 1 =
      some (if (0 : Rat) ≤ -3 then -3 / ((11 : Rat) / 10) else -3 * ((11 : Rat) / 10)) ∧
    ((-3 : Rat) * ((11 : Rat) / 10) < -3 ∧ (-3 : Rat) * ((11 : Rat) / 10) < 0) := by
  have h0 := (c7_repetition_penalty_sign ((11 : Rat) / 10) 64 [0, 1] [2, -3]).2
    (by decide) 0 (by decide) 2 (by decide)
  have h1 := (c7_repetition_penalty_sign ((11 : Rat) / 10) 64 [0, 1] [2, -3]).2
    (by decide) 1 (by decide) (-3) (by decide)
  exact ⟨h0.1, h0.2.1 (by decide) (by decide), h1.1,
    h1.2.2 (by decide) (by decide)⟩

/-! ### Properties of the incremental token stream -/

lemma decodeE_ok {env : Env} {l : List Token} {cs : List Char}
    (h : decodeE env l = .ok cs) : env.decode l = .ok cs := by
  unfold decodeE at h
  split at h
  · rename_i h'
    cases h
    exact h'
  · cases h

lemma next_token_tokens {env : Env} {s : TokenOutputStream} {t : Token}
    {frag : Option (List Char)} {s' : TokenOutputStream}
    (h : TokenOutputStream.next_token env s t = .ok (frag, s')) :
    s'.tokens = s.tokens ++ [t] := by
  unfold TokenOutputStream.next_token at h
  split at h
  · cases h
  · split at h
    · cases h
    · split at h <;> cases h <;> rfl

/-- Characters of a fragment emitted by `next_token` all come from a decode of
a sublist of the fed ids. -/
lemma next_token_frag_chars {env : Env} {s : TokenOutputStream} {t : Token}
    {frag : Option (List Char)} {s' : TokenOutputStream} {c : Char}
    (h : TokenOutputStream.next_token env s t = .ok (frag, s'))
    (H : ∀ l cs, env.decode l = .ok cs → (∀ u ∈ l, u ∈ s.tokens ++ [t]) → c ∉ cs) :
    c ∉ frag.getD [] := by
  unfold TokenOutputStream.next_token at h
  split at h
  · cases h
  · split at h
    · cases h
    · rename_i text htext
      split at h
      · cases h
        intro hc
        have hmem : c ∈ text := List.mem_of_mem_drop hc
        exact H _ _ (decodeE_ok htext) (fun u hu => List.mem_of_mem_drop hu) hmem
      · cases h
        simp

/-- Characters of the text flushed by `decode_rest` all come from a decode of
a sublist of the fed ids. -/
lemma decode_rest_chars {env : Env} {s : TokenOutputStream}
    {rest : Option (List Char)} {c : Char}
    (h : TokenOutputStream.decode_rest env s = .ok rest)
    (H : ∀ l cs, env.decode l = .ok cs → (∀ u ∈ l, u ∈ s.tokens) → c ∉ cs) :
    c ∉ rest.getD [] := by
  unfold TokenOutputStream.decode_rest at h
  split at h
  · cases h
  · split at h
    · cases h
    · rename_i text htext
      split at h
      · cases h
        intro hc
        have hmem : c ∈ text := List.mem_of_mem_drop hc
        exact H _ _ (decodeE_ok htext) (fun u hu => List.mem_of_mem_drop hu) hmem
      · cases h
        simp

/-! ### Invariants of the decoding loop -/

lemma take_of_take_append {α : Type} (l res : List α) (x : α)
    (h : res.take (l ++ [x]).length = l ++ [x]) :
    res.take l.length = l := by
  have h1 : res.take l.length = (res.take (l ++ [x]).length).take l.length := by
    rw [List.take_take]
    congr 1
    simp [Nat.min_def]
  rw [h1, h]
  exact List.take_left' rfl

/-- The newly sampled tokens only ever extend the token sequence: the final
sequence of the loop starts with the sequence it was entered with. -/
lemma decodeLoop_take (env : Env) (rp : Rat) (rln : Nat) (e1 e2 : Token) :
    ∀ (fuel index : Nat) (st : GenSt),
      ((decodeLoop env rp rln e1 e2 index fuel st).1).tokens.take st.tokens.length
        = st.tokens := by
  intro fuel
  induction fuel with
  | zero =>
    intro index st
    simp [decodeLoop, List.take_length]
  | succ n ih =>
    intro index st
    simp only [decodeLoop]
    split
    · simp [List.take_length]
    · split
      · exact List.take_left' rfl
      · split
        · exact List.take_left' rfl
        · rename_i x1 logits kv2 hfwd hstop x2 frag stream2 hnt
          exact take_of_take_append _ _ _ (ih (index + 1)
            ⟨st.tokens ++ [sample_argmax (penalizedLogits rp rln st.tokens logits)],
             st.output ++ frag.getD [], kv2, stream2,
             st.calls ++ [(st.tokens.drop (st.tokens.length -
               if 0 < index then 1 else st.tokens.length),
               st.tokens.length - if 0 < index then 1 else st.tokens.length)]⟩)

lemma decompose_of_take_eq {α : Type} {res pre : List α}
    (h : res.take pre.length = pre) (m : Nat) (hm : m ≤ pre.length) :
    res.drop m = pre.drop m ++ res.drop pre.length := by
  conv_lhs => rw [← List.take_append_drop pre.length res]
  rw [List.drop_append_eq_append_drop, h]
  congr 1
  have h0 : m - pre.length = 0 := by omega
  rw [h0, List.drop_zero]

/-- Specification of one recorded forward call: call `j` was made at position
offset 0 with the whole prompt when `j = 0`, and at offset `P + j - 1` with
the token slice starting there otherwise, where `P` is the prompt length and
`T` the (final) token sequence. -/
def CallsOk (P : Nat) (T : List Token) (calls : List (List Token × Nat)) : Prop :=
  ∀ j c, calls.get? j = some c →
    P + j ≤ T.length ∧
    c.2 = (if j = 0 then 0 else P + j - 1) ∧
    c.1 = (T.take (P + j)).drop (if j = 0 then 0 else P + j - 1)

lemma CallsOk_nil (P : Nat) (T : List Token) : CallsOk P T [] := by
  intro j c hget
  simp at hget

lemma CallsOk_ext (P : Nat) (T ext : List Token)
    (calls : List (List Token × Nat)) (h : CallsOk P T calls) :
    CallsOk P (T ++ ext) calls := by
  intro j c hget
  obtain ⟨h1, h2, h3⟩ := h j c hget
  refine ⟨by simp; omega, h2, ?_⟩
  rw [h3]
  congr 1
  rw [List.take_append_eq_append_take]
  have : P + j - T.length = 0 := by omega
  simp [this]

lemma CallsOk_snoc_step (P index : Nat) (st : GenSt)
    (hlen : st.tokens.length = P + index) (hclen : st.calls.length = index)
    (hok : CallsOk P st.tokens st.calls) :
    CallsOk P st.tokens (st.calls ++
      [(st.tokens.drop (st.tokens.length - if 0 < index then 1 else st.tokens.length),
        st.tokens.length - if 0 < index then 1 else st.tokens.length)]) := by
  intro j c hget
  by_cases hj : j < st.calls.length
  · rw [List.get?_append hj] at hget
    exact hok j c hget
  · have hjlt : j < (st.calls ++ [(st.tokens.drop (st.tokens.length -
        if 0 < index then 1 else st.tokens.length),
        st.tokens.length - if 0 < index then 1 else st.tokens.length)]).length := by
      rcases List.get?_eq_some.mp hget with ⟨hlt, _⟩
      exact hlt
    have hjeq : j = st.calls.length := by
      simp at hjlt
      omega
    subst hjeq
    rw [List.get?_concat_length] at hget
    cases hget
    rcases Nat.eq_zero_or_pos index with hidx | hidx
    · subst hidx
      rw [hclen]
      have hsp : st.tokens.length - st.tokens.length = 0 := by omega
      simp [hsp, hclen, hlen, List.take_length]
    · have hif : (0 < index) = True := by simp [hidx]
      have hne : index ≠ 0 := by omega
      constructor
      · omega
      constructor
      · simp [hif, hclen, hne, hlen]
      · simp only [hif, if_true, hclen, hne, if_false]
        rw [hlen]
        rw [← hlen, List.take_length]

/-- The call trace built by the loop satisfies `CallsOk` throughout. -/
lemma decodeLoop_calls (env : Env) (rp : Rat) (rln : Nat) (e1 e2 P : Token) :
    ∀ (fuel index : Nat) (st st' : GenSt) (err : Option GenErr),
      decodeLoop env rp rln e1 e2 index fuel st = (st', err) →
      st.tokens.length = P + index →
      st.calls.length = index →
      CallsOk P st.tokens st.calls →
      CallsOk P st'.tokens st'.calls := by
  intro fuel
  induction fuel with
  | zero =>
    intro index st st' err hLoop hlen hclen hok
    simp only [decodeLoop] at hLoop
    cases hLoop
    exact hok
  | succ n ih =>
    intro index st st' err hLoop hlen hclen hok
    simp only [decodeLoop] at hLoop
    split at hLoop
    · cases hLoop
      exact CallsOk_snoc_step P index st hlen hclen hok
    · split at hLoop
      · cases hLoop
        exact CallsOk_ext P st.tokens _ _ (CallsOk_snoc_step P index st hlen hclen hok)
      · split at hLoop
        · cases hLoop
          exact CallsOk_ext P st.tokens _ _ (CallsOk_snoc_step P index st hlen hclen hok)
        · rename_i x1 logits kv2 hfwd hstop x2 frag stream2 hnt
          refine ih (index + 1) _ st' err hLoop ?_ ?_ ?_
          · simp
            omega
          · simp [hclen]
          · exact CallsOk_ext P st.tokens _ _ (CallsOk_snoc_step P index st hlen hclen hok)

/-- If the loop completes without error and none of the newly sampled tokens
is a stop token, then it performed exactly `fuel` iterations, each recording
one forward call. -/
lemma decodeLoop_count (env : Env) (rp : Rat) (rln : Nat) (e1 e2 : Token) :
    ∀ (fuel index : Nat) (st st' : GenSt),
      decodeLoop env rp rln e1 e2 index fuel st = (st', none) →
      e1 ∉ st'.tokens.drop st.tokens.length →
      e2 ∉ st'.tokens.drop st.tokens.length →
      st'.calls.length = st.calls.length + fuel := by
  intro fuel
  induction fuel with
  | zero =>
    intro index st st' hLoop h1 h2
    simp only [decodeLoop] at hLoop
    cases hLoop
    rfl
  | succ n ih =>
    intro index st st' hLoop h1 h2
    simp only [decodeLoop] at hLoop
    split at hLoop
    · cases hLoop
    · split at hLoop
      · rename_i x1 logits kv2 hfwd hstop
        cases hLoop
        exfalso
        have hdrop : (st.tokens ++
            [sample_argmax (penalizedLogits rp rln st.tokens logits)]).drop
              st.tokens.length
            = [sample_argmax (penalizedLogits rp rln st.tokens logits)] :=
          List.drop_left _ _
        rw [hdrop] at h1 h2
        rcases hstop with h | h
        · exact h1 (by rw [← h]; exact List.mem_singleton_self _)
        · exact h2 (by rw [← h]; exact List.mem_singleton_self _)
      · split at hLoop
        · cases hLoop
        · rename_i x1 logits kv2 hfwd hstop x2 frag stream2 hnt
          set nt := sample_argmax (penalizedLogits rp rln st.tokens logits) with hntdef
          set ST : GenSt :=
            ⟨st.tokens ++ [nt],
             st.output ++ frag.getD [], kv2, stream2,
             st.calls ++ [(st.tokens.drop (st.tokens.length -
               if 0 < index then 1 else st.tokens.length),
               st.tokens.length - if 0 < index then 1 else st.tokens.length)]⟩
            with hSTdef
          have htake : st'.tokens.take ST.tokens.length = ST.tokens := by
            have := decodeLoop_take env rp rln e1 e2 n (index + 1) ST
            rw [hLoop] at this
            exact this
          have hdec : st'.tokens.drop st.tokens.length =
              (st.tokens ++ [nt]).drop st.tokens.length ++
                st'.tokens.drop ST.tokens.length := by
            have := decompose_of_take_eq htake st.tokens.length (by simp)
            simpa using this
          rw [List.drop_left] at hdec
          have h1' : e1 ∉ st'.tokens.drop ST.tokens.length := by
            intro hmem
            exact h1 (by rw [hdec]; exact List.mem_append_right _ hmem)
          have h2' : e2 ∉ st'.tokens.drop ST.tokens.length := by
            intro hmem
            exact h2 (by rw [hdec]; exact List.mem_append_right _ hmem)
          have hcount := ih (index + 1) ST st' hLoop h1' h2'
          rw [hcount, hSTdef]
          simp
          omega

/-- The loop never feeds a stop token to the token stream, and on a normal
exit the newly sampled ids are the fed ids, followed by the terminating stop
token when the loop broke on one. -/
lemma decodeLoop_stream (env : Env) (rp : Rat) (rln : Nat) (e1 e2 : Token) (P : Nat) :
    ∀ (fuel index : Nat) (st st' : GenSt) (err : Option GenErr),
      decodeLoop env rp rln e1 e2 index fuel st = (st', err) →
      e1 ∉ st.stream.tokens → e2 ∉ st.stream.tokens →
      st.tokens.drop P = st.stream.tokens →
      P ≤ st.tokens.length →
      (e1 ∉ st'.stream.tokens ∧ e2 ∉ st'.stream.tokens) ∧
      (err = none →
        st'.tokens.drop P = st'.stream.tokens ∨
        ∃ t, (t = e1 ∨ t = e2) ∧ st'.tokens.drop P = st'.stream.tokens ++ [t]) := by
  intro fuel
  induction fuel with
  | zero =>
    intro index st st' err hLoop h1 h2 hrel hP
    simp only [decodeLoop] at hLoop
    cases hLoop
    exact ⟨⟨h1, h2⟩, fun _ => Or.inl hrel⟩
  | succ n ih =>
    intro index st st' err hLoop h1 h2 hrel hP
    simp only [decodeLoop] at hLoop
    split at hLoop
    · cases hLoop
      exact ⟨⟨h1, h2⟩, by simp⟩
    · split at hLoop
      · rename_i x1 logits kv2 hfwd hstop
        cases hLoop
        refine ⟨⟨h1, h2⟩, fun _ => Or.inr ?_⟩
        refine ⟨sample_argmax (penalizedLogits rp rln st.tokens logits), hstop, ?_⟩
        rw [List.drop_append_eq_append_drop, hrel]
        have h0 : P - st.tokens.length = 0 := by omega
        rw [h0, List.drop_zero]
      · split at hLoop
        · cases hLoop
          exact ⟨⟨h1, h2⟩, by simp⟩
        · rename_i x1 logits kv2 hfwd hstop x2 frag stream2 hnt
          set nt := sample_argmax (penalizedLogits rp rln st.tokens logits) with hntdef
          have hs2 : stream2.tokens = st.stream.tokens ++ [nt] := next_token_tokens hnt
          have hnt1 : nt ≠ e1 := fun h => hstop (Or.inl h)
          have hnt2 : nt ≠ e2 := fun h => hstop (Or.inr h)
          refine ih (index + 1) _ st' err hLoop ?_ ?_ ?_ ?_
          · simp only [hs2]
            intro hmem
            rcases List.mem_append.mp hmem with h | h
            · exact h1 h
            · exact hnt1 (List.mem_singleton.mp h).symm
          · simp only [hs2]
            intro hmem
            rcases List.mem_append.mp hmem with h | h
            · exact h2 h
            · exact hnt2 (List.mem_singleton.mp h).symm
          · simp only [hs2]
            rw [List.drop_append_eq_append_drop, hrel]
            have h0 : P - st.tokens.length = 0 := by omega
            rw [h0, List.drop_zero]
          · simp
            omega

/-- If no decode of a stop-free id list can contain the character `c`, the
loop never pushes `c` into the output buffer. -/
lemma decodeLoop_output (env : Env) (rp : Rat) (rln : Nat) (e1 e2 : Token) (c : Char)
    (H : ∀ l cs, env.decode l = .ok cs → e1 ∉ l → e2 ∉ l → c ∉ cs) :
    ∀ (fuel index : Nat) (st st' : GenSt) (err : Option GenErr),
      decodeLoop env rp rln e1 e2 index fuel st = (st', err) →
      e1 ∉ st.stream.tokens → e2 ∉ st.stream.tokens →
      c ∉ st.output →
      c ∉ st'.output := by
  intro fuel
  induction fuel with
  | zero =>
    intro index st st' err hLoop h1 h2 hout
    simp only [decodeLoop] at hLoop
    cases hLoop
    exact hout
  | succ n ih =>
    intro index st st' err hLoop h1 h2 hout
    simp only [decodeLoop] at hLoop
    split at hLoop
    · cases hLoop
      exact hout
    · split at hLoop
      · cases hLoop
        exact hout
      · split at hLoop
        · cases hLoop
          exact hout
        · rename_i x1 logits kv2 hfwd hstop x2 frag stream2 hnt
          set nt := sample_argmax (penalizedLogits rp rln st.tokens logits) with hntdef
          have hs2 : stream2.tokens = st.stream.tokens ++ [nt] := next_token_tokens hnt
          have hnt1 : nt ≠ e1 := fun h => hstop (Or.inl h)
          have hnt2 : nt ≠ e2 := fun h => hstop (Or.inr h)
          have hfrag : c ∉ frag.getD [] := by
            refine next_token_frag_chars hnt ?_
            intro l cs hdec hsub
            refine H l cs hdec ?_ ?_
            · intro hmem
              rcases List.mem_append.mp (hsub _ hmem) with h | h
              · exact h1 h
              · exact hnt1 (List.mem_singleton.mp h).symm
            · intro hmem
              rcases List.mem_append.mp (hsub _ hmem) with h | h
              · exact h2 h
              · exact hnt2 (List.mem_singleton.mp h).symm
          refine ih (index + 1) _ st' err hLoop ?_ ?_ ?_
          · simp only [hs2]
            intro hmem
            rcases List.mem_append.mp hmem with h | h
            · exact h1 h
            · exact hnt1 (List.mem_singleton.mp h).symm
          · simp only [hs2]
            intro hmem
            rcases List.mem_append.mp hmem with h | h
            · exact h2 h
            · exact hnt2 (List.mem_singleton.mp h).symm
          · intro hmem
            rcases List.mem_append.mp hmem with h | h
            · exact hout h
            · exact hfrag h

/-! ### Properties of `generate` and `new` -/

/-- A successfully constructed session is exactly the initial session. -/
lemma new_ok {env : Env} {g : SqlCodeGenerator}
    (h : SqlCodeGenerator.new env = .ok g) :
    g = ⟨[], ⟨[], 0, 0⟩, (11 : Rat) / 10, 64⟩ := by
  unfold SqlCodeGenerator.new at h
  split at h
  · cases h
  · cases h
    rfl

/-- The function `generate` clears the token stream before doing anything else, so its
outcome does not depend on the tokenizer state the session starts with. -/
lemma generate_tokenizer_irrelevant (env : Env) (kv : KV)
    (t1 t2 : TokenOutputStream) (rp : Rat) (rln : Nat) (p s : String) :
    SqlCodeGenerator.generate env ⟨kv, t1, rp, rln⟩ p s =
      SqlCodeGenerator.generate env ⟨kv, t2, rp, rln⟩ p s := rfl

/-- The sampling configuration of the session is unchanged by `generate`. -/
lemma generate_config (env : Env) (g : SqlCodeGenerator) (p s : String) :
    (SqlCodeGenerator.generate env g p s).session.repeat_penalty = g.repeat_penalty ∧
    (SqlCodeGenerator.generate env g p s).session.repeat_last_n = g.repeat_last_n := by
  simp only [SqlCodeGenerator.generate]
  split
  · exact ⟨rfl, rfl⟩
  · split
    · exact ⟨rfl, rfl⟩
    · split
      · exact ⟨rfl, rfl⟩
      · split
        · exact ⟨rfl, rfl⟩
        · split
          · exact ⟨rfl, rfl⟩
          · split
            · exact ⟨rfl, rfl⟩
            · exact ⟨rfl, rfl⟩

/-- Full characterization of a successful `generate` call: the template,
encoding and both stop-token lookups succeeded, the loop completed without
error, the remainder flush succeeded, and the returned record is the loop
state with the KV cache reset. -/
lemma generate_ok_inv (env : Env) (g : SqlCodeGenerator) (p s out : String)
    (hok : (SqlCodeGenerator.generate env g p s).result = .ok out) :
    ∃ tpl toks e1 e2 st rest,
      env.apply_template [⟨"system", SYSTEM_PROMPT⟩,
        ⟨"user", p ++ "\nSCHEMA: " ++ s⟩] true = .ok tpl ∧
      env.encode tpl true = .ok toks ∧
      env.get_token "<|endoftext|>" = some e1 ∧
      env.get_token "<|im_end|>" = some e2 ∧
      decodeLoop env g.repeat_penalty g.repeat_last_n e1 e2 0 256
        ⟨toks, [], g.kv, ⟨[], 0, 0⟩, []⟩ = (st, none) ∧
      TokenOutputStream.decode_rest env st.stream = .ok rest ∧
      out = String.mk (st.output ++ rest.getD []) ∧
      SqlCodeGenerator.generate env g p s =
        ⟨.ok out, ⟨[], st.stream, g.repeat_penalty, g.repeat_last_n⟩,
          st.calls, toks, st.tokens, 1⟩ := by
  simp only [SqlCodeGenerator.generate, TokenOutputStream.clear] at hok
  cases htpl : env.apply_template [⟨"system", SYSTEM_PROMPT⟩,
      ⟨"user", p ++ "\nSCHEMA: " ++ s⟩] true with
  | error m => simp [htpl] at hok
  | ok tpl =>
    simp only [htpl] at hok
    cases henc : env.encode tpl true with
    | error m => simp [henc] at hok
    | ok toks =>
      simp only [henc] at hok
      cases he1 : env.get_token "<|endoftext|>" with
      | none => simp [he1] at hok
      | some e1 =>
        simp only [he1] at hok
        cases he2 : env.get_token "<|im_end|>" with
        | none => simp [he2] at hok
        | some e2 =>
          simp only [he2] at hok
          rcases hloop : decodeLoop env g.repeat_penalty g.repeat_last_n e1 e2 0 256
              ⟨toks, [], g.kv, ⟨[], 0, 0⟩, []⟩ with ⟨st, err⟩
          simp only [hloop] at hok
          cases err with
          | some e => simp at hok
          | none =>
            cases hrest : TokenOutputStream.decode_rest env st.stream with
            | error e => simp [hrest] at hok
            | ok rest =>
              simp only [hrest] at hok
              have hX : String.mk (st.output ++ rest.getD []) = out := by
                simpa using hok
              subst hX
              refine ⟨tpl, toks, e1, e2, st, rest, rfl, henc, rfl, rfl, hloop,
                hrest, rfl, ?_⟩
              simp only [SqlCodeGenerator.generate, TokenOutputStream.clear,
                htpl, henc, he1, he2, hloop, hrest]

/-! ### Claims -/

/-- C4: a tensor-runtime error during the prefill pass or any decode step
makes `generate` abort at once with an error value that carries no partial
output (the error alternative of the result type holds no text), and on every
error path `clear_kv_cache` is never executed — the KV cache is left exactly
as the failing run left it (dirty). -/
theorem c4_error_leaves_cache_dirty (env : Env) (g : SqlCodeGenerator)
    (p s : String) (e : GenErr)
    (he : (SqlCodeGenerator.generate env g p s).result = .error e) :
    (SqlCodeGenerator.generate env g p s).cache_resets = 0 := by
  revert he
  simp only [SqlCodeGenerator.generate]
  split
  · intro he; rfl
  · split
    · intro he; rfl
    · split
      · intro he; rfl
      · split
        · intro he; rfl
        · split
          · intro he; rfl
          · split
            · intro he; rfl
            · intro he; simp at he

/-- Witness for C4: the prefill succeeds and populates the KV cache, the
first decode step fails; the call returns the forward error, performed no
cache reset, and the returned session still holds the dirty cache. -/
theorem c4_witness :
    (SqlCodeGenerator.generate envFwdFail freshSession "q" "t").result =
      .error (.forwardErr "boom") ∧
    (SqlCodeGenerator.generate envFwdFail freshSession "q" "t").cache_resets = 0 ∧
    (SqlCodeGenerator.generate envFwdFail freshSession "q" "t").session.kv = [99] := by
  refine ⟨by decide, c4_error_leaves_cache_dirty envFwdFail freshSession "q" "t"
    (.forwardErr "boom") (by decide), by decide⟩

/-- C5 counterexample: with a tokenizer that lacks both stop markers,
session construction SUCCEEDS (no stop-token validation happens in `new`),
and the constructed session's `generate` call then fails with the
missing-stop-token error — the error is surfaced by `generate`, not at
construction time, contradicting the claim on a concrete input. -/
theorem c5_counterexample :
    SqlCodeGenerator.new envNoStop = .ok freshSession ∧
    (SqlCodeGenerator.generate envNoStop freshSession "q" "t").result =
      .error (.missingStopToken "<|endoftext|>") := by
  exact ⟨by decide, by decide⟩

/-- C5 amended: stop-token resolution happens at the start of every
`generate` call, not at session construction: `new` performs no stop-token
validation (it succeeds whenever artifact loading succeeds, regardless of the
vocabulary), and when templating and encoding succeed but a required marker
is absent, `generate` itself fails with a missing-stop-token error before any
model invocation. -/
theorem c5_missing_stop_token_per_call (env : Env) (g : SqlCodeGenerator)
    (p s tpl : String) (toks : List Token)
    (htpl : env.apply_template [⟨"system", SYSTEM_PROMPT⟩,
      ⟨"user", p ++ "\nSCHEMA: " ++ s⟩] true = .ok tpl)
    (henc : env.encode tpl true = .ok toks)
    (hmiss : env.get_token "<|endoftext|>" = none ∨
      env.get_token "<|im_end|>" = none) :
    (∃ name, (SqlCodeGenerator.generate env g p s).result =
      .error (.missingStopToken name)) ∧
    (SqlCodeGenerator.generate env g p s).calls = [] ∧
    (env.construct = .ok () →
      SqlCodeGenerator.new env = .ok ⟨[], ⟨[], 0, 0⟩, (11 : Rat) / 10, 64⟩) := by
  refine ⟨?_, ?_, ?_⟩
  · cases he1 : env.get_token "<|endoftext|>" with
    | none =>
      refine ⟨"<|endoftext|>", ?_⟩
      simp only [SqlCodeGenerator.generate, htpl, henc, he1]
    | some e1 =>
      rcases hmiss with h | h
      · rw [he1] at h
        cases h
      · refine ⟨"<|im_end|>", ?_⟩
        simp only [SqlCodeGenerator.generate, htpl, henc, he1, h]
  · cases he1 : env.get_token "<|endoftext|>" with
    | none => simp only [SqlCodeGenerator.generate, htpl, henc, he1]
    | some e1 =>
      rcases hmiss with h | h
      · rw [he1] at h
        cases h
      · simp only [SqlCodeGenerator.generate, htpl, henc, he1, h]
  · intro hc
    simp only [SqlCodeGenerator.new, hc]

/-- Witness for C5 amended. -/
theorem c5_witness :
    (∃ name, (SqlCodeGenerator.generate envNoStop freshSession "q" "t").result =
      .error (.missingStopToken name)) ∧
    (SqlCodeGenerator.generate envNoStop freshSession "q" "t").calls = [] ∧
    (envNoStop.construct = .ok () →
      SqlCodeGenerator.new envNoStop = .ok ⟨[], ⟨[], 0, 0⟩, (11 : Rat) / 10, 64⟩) :=
  c5_missing_stop_token_per_call envNoStop freshSession "q" "t" "tpl" [0]
    (by decide) (by decide) (Or.inl (by decide))

/-- C9 counterexample: `generate` can succeed with the EMPTY string — when
the very first sampled token is already a stop token, no fragment is ever
decoded and the call returns Ok of the empty output, so "returns a non-empty
string or an error" fails on the code. -/
theorem c9_counterexample :
    (SqlCodeGenerator.generate envEosFirst freshSession "q" "t").result = .ok "" := by
  decide

/-- C9 amended: for every well-typed prompt/schema input, `generate` is a
total function whose result is either a (possibly empty) string or a tagged
error value. Totality of the embedded core is the shallow-embedding rendering
of "never panics": all array accesses in the loop are saturating slices, and
the result type makes the outcome an explicit value in every case. -/
theorem c9_total_result (env : Env) (g : SqlCodeGenerator) (p s : String) :
    (∃ out, (SqlCodeGenerator.generate env g p s).result = .ok out) ∨
    (∃ e, (SqlCodeGenerator.generate env g p s).result = .error e) := by
  cases h : (SqlCodeGenerator.generate env g p s).result with
  | ok out => exact Or.inl ⟨out, rfl⟩
  | error e => exact Or.inr ⟨e, rfl⟩

/-- C10: the exported FFI constructor never propagates an error value across
the language boundary: its outcome type has no error alternative, a failing
`new` becomes a process abort with the `expect` message, and a successful
`new` is returned boxed. -/
theorem c10_ffi_constructor_aborts (env : Env) :
    (∀ e, SqlCodeGenerator.new env = .error e →
      create_sql_code_generator env = .abort "Failed to construct") ∧
    (∀ g, SqlCodeGenerator.new env = .ok g →
      create_sql_code_generator env = .ok g) := by
  constructor
  · intro e h
    simp only [create_sql_code_generator, h]
  · intro g h
    simp only [create_sql_code_generator, h]

/-- Witness for C10: a failing registry fetch at construction time aborts the
process instead of returning an error across the FFI boundary. -/
theorem c10_witness :
    create_sql_code_generator envCtorFail = .abort "Failed to construct" :=
  (c10_ffi_constructor_aborts envCtorFail).1 (.constructionErr "io error") (by decide)

/-- C3 counterexample: after a successful `generate` call the KV cache is
reset, but the tokenizer decode state is NOT cleared at the end of the call:
the returned session still holds the fed token and an advanced decode cursor
(`tokenizer.clear` runs at the START of the next call instead, line 91). -/
theorem c3_counterexample :
    (SqlCodeGenerator.generate baseEnv freshSession "q" "t").result = .ok "a" ∧
    (SqlCodeGenerator.generate baseEnv freshSession "q" "t").session.tokenizer =
      ⟨[0], 0, 1⟩ ∧
    (SqlCodeGenerator.generate baseEnv freshSession "q" "t").session.tokenizer ≠
      TokenOutputStream.clear
        (SqlCodeGenerator.generate baseEnv freshSession "q" "t").session.tokenizer := by
  exact ⟨by decide, by decide, by decide⟩

/-- C3 amended: at the end of every successful `generate` call the KV cache
is reset to empty (exactly one reset is performed); the tokenizer decode
cursor, however, is cleared at the START of every call, not at its end.
Because of that start-of-call clear, the stale decode state is harmless: a
second call on the used session behaves identically (same result, same final
state) to the same call on the freshly constructed session, so consecutive
calls still match calls on fresh sessions — no cross-call state leaks into
the observable behaviour. -/
theorem c3_cache_reset_idempotence (env : Env) (g0 : SqlCodeGenerator)
    (p1 s1 p2 s2 out1 : String)
    (hnew : SqlCodeGenerator.new env = .ok g0)
    (h1 : (SqlCodeGenerator.generate env g0 p1 s1).result = .ok out1) :
    (SqlCodeGenerator.generate env g0 p1 s1).session.kv = [] ∧
    (SqlCodeGenerator.generate env g0 p1 s1).cache_resets = 1 ∧
    SqlCodeGenerator.generate env
      (SqlCodeGenerator.generate env g0 p1 s1).session p2 s2 =
      SqlCodeGenerator.generate env g0 p2 s2 := by
  obtain ⟨tpl, toks, e1, e2, st, rest, htpl, henc, he1, he2, hloop, hrest,
    hout, hgen⟩ := generate_ok_inv env g0 p1 s1 out1 h1
  have hg0 := new_ok hnew
  subst hg0
  refine ⟨by rw [hgen], by rw [hgen], ?_⟩
  rw [hgen]
  exact generate_tokenizer_irrelevant env [] st.stream ⟨[], 0, 0⟩
    ((11 : Rat) / 10) 64 p2 s2

/-- Witness for C3 amended. -/
theorem c3_witness :
    (SqlCodeGenerator.generate baseEnv freshSession "q" "t").session.kv = [] ∧
    (SqlCodeGenerator.generate baseEnv freshSession "q" "t").cache_resets = 1 ∧
    SqlCodeGenerator.generate baseEnv
      (SqlCodeGenerator.generate baseEnv freshSession "q" "t").session "u" "v" =
      SqlCodeGenerator.generate baseEnv freshSession "u" "v" :=
  c3_cache_reset_idempotence baseEnv freshSession "q" "t" "u" "v" "a"
    (by decide) (by decide)

/-- C8: the sampling chain is configured with temperature 0 (argmax, the
fixed seed is never consulted), so decoding is deterministic; and since a
successful call leaves the KV cache empty and the decode cursor is cleared on
entry, a second `generate` call with the same `(prompt, schema)` on the
freshly constructed session returns the byte-identical output string of the
first call. -/
theorem c8_deterministic_repeat (env : Env) (g0 : SqlCodeGenerator)
    (p s out : String)
    (hnew : SqlCodeGenerator.new env = .ok g0)
    (h1 : (SqlCodeGenerator.generate env g0 p s).result = .ok out) :
    (SqlCodeGenerator.generate env
      (SqlCodeGenerator.generate env g0 p s).session p s).result = .ok out := by
  obtain ⟨tpl, toks, e1, e2, st, rest, htpl, henc, he1, he2, hloop, hrest,
    hout, hgen⟩ := generate_ok_inv env g0 p s out h1
  have hg0 := new_ok hnew
  subst hg0
  rw [hgen]
  have hswap := generate_tokenizer_irrelevant env [] st.stream ⟨[], 0, 0⟩
    ((11 : Rat) / 10) 64 p s
  rw [hswap]
  exact h1

/-- Witness for C8. -/
theorem c8_witness :
    (SqlCodeGenerator.generate baseEnv
      (SqlCodeGenerator.generate baseEnv freshSession "q" "t").session
      "q" "t").result = .ok "a" :=
  c8_deterministic_repeat baseEnv freshSession "q" "t" "a" (by decide) (by decide)

lemma take_drop_singleton {α : Type} (T : List α) (m : Nat)
    (h : m + 1 ≤ T.length) :
    (T.take (m + 1)).drop m = (T.get? m).toList := by
  rw [List.take_succ, List.drop_append_eq_append_drop]
  have hlen : (T.take m).length = m := by
    rw [List.length_take]
    omega
  rw [hlen]
  have hnil : (T.take m).drop m = [] := by
    apply List.drop_eq_nil_of_le
    omega
  rw [hnil]
  simp

/-- Every `generate` call satisfies the forward-call trace specification, and
the final token sequence starts with the encoded prompt. -/
lemma generate_callsOk (env : Env) (g : SqlCodeGenerator) (p s : String) :
    CallsOk (SqlCodeGenerator.generate env g p s).prompt_tokens.length
      (SqlCodeGenerator.generate env g p s).all_tokens
      (SqlCodeGenerator.generate env g p s).calls ∧
    (SqlCodeGenerator.generate env g p s).all_tokens.take
      (SqlCodeGenerator.generate env g p s).prompt_tokens.length =
      (SqlCodeGenerator.generate env g p s).prompt_tokens := by
  cases htpl : env.apply_template [⟨"system", SYSTEM_PROMPT⟩,
      ⟨"user", p ++ "\nSCHEMA: " ++ s⟩] true with
  | error m =>
    simp only [SqlCodeGenerator.generate, TokenOutputStream.clear, htpl]
    exact ⟨CallsOk_nil _ _, rfl⟩
  | ok tpl =>
    cases henc : env.encode tpl true with
    | error m =>
      simp only [SqlCodeGenerator.generate, TokenOutputStream.clear, htpl, henc]
      exact ⟨CallsOk_nil _ _, rfl⟩
    | ok toks =>
      cases he1 : env.get_token "<|endoftext|>" with
      | none =>
        simp only [SqlCodeGenerator.generate, TokenOutputStream.clear, htpl,
          henc, he1]
        exact ⟨CallsOk_nil _ _, List.take_length _⟩
      | some e1 =>
        cases he2 : env.get_token "<|im_end|>" with
        | none =>
          simp only [SqlCodeGenerator.generate, TokenOutputStream.clear, htpl,
            henc, he1, he2]
          exact ⟨CallsOk_nil _ _, List.take_length _⟩
        | some e2 =>
          rcases hloop : decodeLoop env g.repeat_penalty g.repeat_last_n e1 e2
              0 256 ⟨toks, [], g.kv, ⟨[], 0, 0⟩, []⟩ with ⟨st, err⟩
          have hco := decodeLoop_calls env g.repeat_penalty g.repeat_last_n
            e1 e2 toks.length 256 0 ⟨toks, [], g.kv, ⟨[], 0, 0⟩, []⟩ st err
            hloop rfl rfl (CallsOk_nil _ _)
          have htk := decodeLoop_take env g.repeat_penalty g.repeat_last_n
            e1 e2 256 0 ⟨toks, [], g.kv, ⟨[], 0, 0⟩, []⟩
          rw [hloop] at htk
          simp only at htk hco
          cases err with
          | some e =>
            simp only [SqlCodeGenerator.generate, TokenOutputStream.clear,
              htpl, henc, he1, he2, hloop]
            exact ⟨hco, htk⟩
          | none =>
            cases hrest : TokenOutputStream.decode_rest env st.stream with
            | error e3 =>
              simp only [SqlCodeGenerator.generate, TokenOutputStream.clear,
                htpl, henc, he1, he2, hloop, hrest]
              exact ⟨hco, htk⟩
            | ok rest =>
              simp only [SqlCodeGenerator.generate, TokenOutputStream.clear,
                htpl, henc, he1, he2, hloop, hrest]
              exact ⟨hco, htk⟩

/-- C6: in every `generate` call, the first model invocation processes the
entire encoded prompt at position offset 0, and every later invocation `j`
feeds exactly the single most recently produced token id — the token at index
`P + j - 1` of the final token sequence, where `P` is the prompt length —
at position offset `P + j - 1`, i.e. the then-current sequence length minus
one; tokens already in the KV cache are never re-fed to the model. -/
theorem c6_prefill_then_single_token (env : Env) (g : SqlCodeGenerator)
    (p s : String) :
    (∀ c0, (SqlCodeGenerator.generate env g p s).calls.get? 0 = some c0 →
      c0 = ((SqlCodeGenerator.generate env g p s).prompt_tokens, 0)) ∧
    (∀ j c, 0 < j →
      (SqlCodeGenerator.generate env g p s).calls.get? j = some c →
      c.2 = (SqlCodeGenerator.generate env g p s).prompt_tokens.length + j - 1 ∧
      c.1 = ((SqlCodeGenerator.generate env g p s).all_tokens.get?
        ((SqlCodeGenerator.generate env g p s).prompt_tokens.length + j - 1)).toList ∧
      c.1.length = 1) := by
  obtain ⟨hcalls, htake⟩ := generate_callsOk env g p s
  constructor
  · intro c0 hget
    obtain ⟨hle, h2, h1⟩ := hcalls 0 c0 hget
    simp at h1 h2
    rw [htake] at h1
    rcases c0 with ⟨cl, cp⟩
    simp only at h1 h2
    simp [h1, h2]
  · intro j c hj hget
    obtain ⟨hle, h2, h1⟩ := hcalls j c hget
    have hne : j ≠ 0 := by omega
    rw [if_neg hne] at h1 h2
    obtain ⟨m, hm⟩ : ∃ m, (SqlCodeGenerator.generate env g p s).prompt_tokens.length
        + j = m + 1 := ⟨(SqlCodeGenerator.generate env g p s).prompt_tokens.length
          + j - 1, by omega⟩
    have hm' : (SqlCodeGenerator.generate env g p s).prompt_tokens.length
        + j - 1 = m := by omega
    refine ⟨h2, ?_, ?_⟩
    · rw [h1, hm', hm]
      exact take_drop_singleton _ m (by omega)
    · rw [h1, hm', hm, take_drop_singleton _ m (by omega)]
      have hlt : m < (SqlCodeGenerator.generate env g p s).all_tokens.length := by
        omega
      rw [List.get?_eq_get hlt]
      rfl

/-- Witness for C6: in the two-call run of `baseEnv`, the second model
invocation feeds exactly the single token sampled by the prefill, at position
offset 1 = sequence length - 1. -/
theorem c6_witness :
    (SqlCodeGenerator.generate baseEnv freshSession "q" "t").calls.get? 1 =
      some ([0], 1) ∧
    (([0], 1) : List Token × Nat).2 =
      (SqlCodeGenerator.generate baseEnv freshSession "q" "t").prompt_tokens.length
        + 1 - 1 ∧
    (([0], 1) : List Token × Nat).1 =
      ((SqlCodeGenerator.generate baseEnv freshSession "q" "t").all_tokens.get?
        ((SqlCodeGenerator.generate baseEnv freshSession "q" "t").prompt_tokens.length
          + 1 - 1)).toList := by
  have h := (c6_prefill_then_single_token baseEnv freshSession "q" "t").2
    1 ([0], 1) (by omega) (by decide)
  exact ⟨by decide, h.1, h.2.1⟩

/-- C1 (amended): on every successful `generate` call, the loop stops at the
first sampled stop token without feeding it to the decoder: neither resolved
stop id ever appears among the ids fed to the token stream, and the sampled
ids are exactly the fed ids — followed by the terminating stop id when one
was sampled (nothing is sampled after it). The stop token itself is thus
never decoded into the output; but the marker RENDERING can still reach the
output through ordinary tokens (see the counterexample), so textual exclusion
holds only conditionally: whenever the tokenizer never produces the character
< when decoding stop-free id lists (both marker renderings <|endoftext|> and
<|im_end|> begin with <), the returned text contains no < at all and hence
neither textual stop-marker rendering as a substring. -/
theorem c1_stop_token_exclusion (env : Env) (g : SqlCodeGenerator)
    (p s out : String) (e1 e2 : Token)
    (h1 : env.get_token "<|endoftext|>" = some e1)
    (h2 : env.get_token "<|im_end|>" = some e2)
    (hok : (SqlCodeGenerator.generate env g p s).result = .ok out) :
    (e1 ∉ (SqlCodeGenerator.generate env g p s).session.tokenizer.tokens ∧
     e2 ∉ (SqlCodeGenerator.generate env g p s).session.tokenizer.tokens) ∧
    ((SqlCodeGenerator.generate env g p s).all_tokens.drop
        (SqlCodeGenerator.generate env g p s).prompt_tokens.length =
      (SqlCodeGenerator.generate env g p s).session.tokenizer.tokens ∨
     ∃ t, (t = e1 ∨ t = e2) ∧
       (SqlCodeGenerator.generate env g p s).all_tokens.drop
           (SqlCodeGenerator.generate env g p s).prompt_tokens.length =
         (SqlCodeGenerator.generate env g p s).session.tokenizer.tokens ++ [t]) ∧
    ((∀ l cs, env.decode l = .ok cs → e1 ∉ l → e2 ∉ l → '<' ∉ cs) →
      '<' ∉ out.toList) := by
  obtain ⟨tpl, toks, e1x, e2x, st, rest, htpl, henc, he1, he2, hloop, hrest,
    hout, hgen⟩ := generate_ok_inv env g p s out hok
  rw [h1] at he1
  rw [h2] at he2
  cases he1
  cases he2
  have hstream := decodeLoop_stream env g.repeat_penalty g.repeat_last_n e1 e2
    toks.length 256 0 ⟨toks, [], g.kv, ⟨[], 0, 0⟩, []⟩ st none hloop
    (by simp) (by simp) (by simp [List.drop_length]) (by simp)
  obtain ⟨⟨hs1, hs2⟩, hrel⟩ := hstream
  refine ⟨?_, ?_, ?_⟩
  · rw [hgen]
    exact ⟨hs1, hs2⟩
  · rw [hgen]
    exact hrel rfl
  · intro H
    have hloopout := decodeLoop_output env g.repeat_penalty g.repeat_last_n
      e1 e2 '<' H 256 0 ⟨toks, [], g.kv, ⟨[], 0, 0⟩, []⟩ st none hloop
      (by simp) (by simp) (by simp)
    have hrestout : '<' ∉ rest.getD [] := by
      refine decode_rest_chars hrest ?_
      intro l cs hdec hsub
      refine H l cs hdec ?_ ?_
      · intro hmem
        exact hs1 (hsub _ hmem)
      · intro hmem
        exact hs2 (hsub _ hmem)
    have houtl : out.toList = st.output ++ rest.getD [] := by
      rw [hout]
      rfl
    rw [houtl]
    intro hmem
    rcases List.mem_append.mp hmem with h | h
    · exact hloopout h
    · exact hrestout h

/-- The `baseEnv` tokenizer decodes every id as the letter a, so no decode
output ever contains the character <. -/
lemma baseEnv_decode_lt_free : ∀ (l : List Token) (cs : List Char),
    baseEnv.decode l = .ok cs → 1 ∉ l → 2 ∉ l → '<' ∉ cs := by
  intro l cs hdec h1 h2
  have hcs : cs = List.replicate l.length 'a' := by
    simp only [baseEnv] at hdec
    cases hdec
    rfl
  rw [hcs]
  simp [List.mem_replicate]

/-- Witness for C1: in the `baseEnv` run the loop samples text token 0 and
then stop token 1; only token 0 is ever decoded, and the output "a" is free
of the marker character <. -/
theorem c1_witness :
    (1 ∉ (SqlCodeGenerator.generate baseEnv freshSession "q" "t").session.tokenizer.tokens ∧
     2 ∉ (SqlCodeGenerator.generate baseEnv freshSession "q" "t").session.tokenizer.tokens) ∧
    '<' ∉ "a".toList := by
  have h := c1_stop_token_exclusion baseEnv freshSession "q" "t" "a" 1 2
    (by decide) (by decide) (by decide)
  exact ⟨h.1, h.2.2 baseEnv_decode_lt_free⟩

/-- C2 amended: when `generate` succeeds and no sampled token is a stop
token, the loop performed its full budget of exactly 256 forward/sampling
iterations in total — the full-prompt prefill iteration (which itself samples
the first token) followed by 255 single-token decode iterations — and the
accumulated (possibly truncated) text is returned as a normal result, not an
error. A stop token the model would first emit at sampling step 257 is
therefore never reached. (The claim as stated — 256 decode iterations AFTER
the prefill pass, i.e. 257 forward passes — does not hold; see the
counterexample.) -/
theorem c2_step_budget (env : Env) (g : SqlCodeGenerator) (p s out : String)
    (e1 e2 : Token)
    (h1 : env.get_token "<|endoftext|>" = some e1)
    (h2 : env.get_token "<|im_end|>" = some e2)
    (hok : (SqlCodeGenerator.generate env g p s).result = .ok out)
    (hs1 : e1 ∉ (SqlCodeGenerator.generate env g p s).all_tokens.drop
      (SqlCodeGenerator.generate env g p s).prompt_tokens.length)
    (hs2 : e2 ∉ (SqlCodeGenerator.generate env g p s).all_tokens.drop
      (SqlCodeGenerator.generate env g p s).prompt_tokens.length) :
    (SqlCodeGenerator.generate env g p s).calls.length = 256 ∧
    ((SqlCodeGenerator.generate env g p s).calls.drop 1).length = 255 := by
  obtain ⟨tpl, toks, e1x, e2x, st, rest, htpl, henc, he1, he2, hloop, hrest,
    hout, hgen⟩ := generate_ok_inv env g p s out hok
  rw [h1] at he1
  rw [h2] at he2
  cases he1
  cases he2
  rw [hgen] at hs1 hs2
  simp only at hs1 hs2
  have hcount := decodeLoop_count env g.repeat_penalty g.repeat_last_n e1 e2
    256 0 ⟨toks, [], g.kv, ⟨[], 0, 0⟩, []⟩ st hloop hs1 hs2
  rw [List.length_nil, Nat.zero_add] at hcount
  rw [hgen]
  simp only
  refine ⟨hcount, ?_⟩
  rw [List.length_drop, hcount]

set_option maxHeartbeats 16000000 in
/-- C2 counterexample: in a run where the model never emits a stop token,
the loop makes 256 forward passes in total — the prefill plus only 255
single-token decode iterations after it (each feeding a context of length 1),
not 256 decode iterations after the prefill as the claim states (that would
require 257 forward passes). The call still returns a normal result. -/
theorem c2_counterexample :
    (SqlCodeGenerator.generate envBudget freshSession "q" "t").result = .ok "" ∧
    (SqlCodeGenerator.generate envBudget freshSession "q" "t").calls.length = 256 ∧
    ((SqlCodeGenerator.generate envBudget freshSession "q" "t").calls.drop 1).length
      = 255 ∧
    ((SqlCodeGenerator.generate envBudget freshSession "q" "t").calls.drop 1).all
      (fun c => c.1.length = 1) = true := by
  exact ⟨by decide, by decide, by decide, by decide⟩

set_option maxHeartbeats 16000000 in
/-- Witness for C2 amended, on the same no-stop-token run. -/
theorem c2_witness :
    (SqlCodeGenerator.generate envBudget freshSession "q" "t").calls.length = 256 ∧
    ((SqlCodeGenerator.generate envBudget freshSession "q" "t").calls.drop 1).length
      = 255 :=
  c2_step_budget envBudget freshSession "q" "t" "" 1 2 (by decide) (by decide)
    (by decide) (by decide) (by decide)

/-- C1 counterexample: the guarantee "the returned string never contains the
textual rendering of either stop marker" fails on the code. In this run the
stop-token discipline is intact — the loop samples ordinary token 0, then
stop token 1 and breaks, and no stop id is ever fed to the decoder — yet the
returned string IS the rendering <|endoftext|>, spelled by the ordinary token
0 and flushed by `decode_rest` (whose emission, unlike `next_token`, has no
trailing-alphanumeric guard). The code constrains which token IDS are
decoded, never which TEXT the decoded tokens produce. -/
theorem c1_counterexample :
    (SqlCodeGenerator.generate envMarkerText freshSession "q" "t").result =
      .ok "<|endoftext|>" ∧
    1 ∉ (SqlCodeGenerator.generate envMarkerText freshSession "q" "t").session.tokenizer.tokens ∧
    2 ∉ (SqlCodeGenerator.generate envMarkerText freshSession "q" "t").session.tokenizer.tokens := by
  exact ⟨by decide, by decide, by decide⟩
